import Mathlib

/-!
Shallow embedding of the `backoff` package (exponential backoff with
randomized wait times) and of its Prometheus metrics exporter and
Retry-After header helper.

Conventions of the embedding:
* Go `time.Duration` values and times are `Int` nanoseconds
  (`Second = 1000000000`, `Millisecond = 1000000`).
* Go 64-bit integer arithmetic wraps; `i64` reduces an unbounded `Int`
  to the two's-complement value of its low 64 bits.
* `context.Context` is modelled by its observable surface used by the
  package: `Deadline()` (an optional absolute expiry instant) and
  `Err()` (none while the context is live).
* `rand.Intn(maxmilli)` is modelled by an explicit jitter argument `j`;
  theorems carry the hypothesis `0 ≤ j < maxmilli` where the claim
  speaks about the jitter.
* The `select` in `Wait`/`WaitFor` evaluates its channel operands when
  the statement executes, so `NextDelay()` runs (and increments the
  count) before either branch is chosen; which branch unblocks first
  does not change the counter state, so the model returns the new state
  together with the duration the timer was armed with.
-/

namespace Kit

/-- Two's-complement wraparound of Go 64-bit integer arithmetic. -/
def i64 (x : Int) : Int := (x + 2 ^ 63) % 2 ^ 64 - 2 ^ 63

/-- Go `time.Second` in nanoseconds. -/
def Second : Int := 1000000000

/-- Go `time.Millisecond` in nanoseconds. -/
def Millisecond : Int := 1000000

/-- Error values the package can observe or produce. `terminatedAfter n`
stands for `fmt.Errorf("terminated after %d retries", n)`. -/
inductive GoError where
  | deadlineExceeded : GoError
  | canceled : GoError
  | terminatedAfter : Int → GoError
deriving DecidableEq, Repr

/-- The message carried by each error value. -/
def errorMessage : GoError → String
  | .deadlineExceeded => "context deadline exceeded"
  | .canceled => "context canceled"
  | .terminatedAfter n => "terminated after " ++ toString n ++ " retries"

/-- Observable surface of a `context.Context`: optional absolute expiry
instant (`Deadline()`), and the current `Err()` value. -/
structure Context where
  deadline : Option Int
  err : Option GoError
deriving DecidableEq, Repr

/-- The `Backoff` struct. `hasCancel` records whether `cancel != nil`,
i.e. whether the controller owns a synthesized deadline. -/
structure Backoff where
  MaxRetries : Int
  ctx : Context
  hasCancel : Bool
  numRetries : Int
  nextDelay : Int
deriving DecidableEq, Repr

/-- Default timeout synthesized by `New`: `64 * time.Second`. -/
def defaultTimeout : Int := 64 * Second

/-- `New(ctx, retries)`: wraps the context with a 64-second timeout when
it carries no deadline and `retries == 0`; `now` is the instant at which
`context.WithTimeout` is evaluated. -/
def New (now : Int) (ctx : Context) (retries : Int) : Backoff :=
  if ctx.deadline = none ∧ retries = 0 then
    { MaxRetries := retries
      ctx := { deadline := some (now + defaultTimeout), err := ctx.err }
      hasCancel := true
      numRetries := 0
      nextDelay := 0 }
  else
    { MaxRetries := retries
      ctx := ctx
      hasCancel := false
      numRetries := 0
      nextDelay := 0 }

/-- `Ongoing`: `b.ctx.Err() == nil && (b.MaxRetries == 0 || b.numRetries < b.MaxRetries)`. -/
def Ongoing (b : Backoff) : Bool :=
  b.ctx.err.isNone && (b.MaxRetries == 0 || decide (b.numRetries < b.MaxRetries))

/-- `Err`: the context error first, then the retry-exhausted error, else nil. -/
def Err (b : Backoff) : Option GoError :=
  if b.ctx.err.isSome then b.ctx.err
  else if b.MaxRetries ≠ 0 ∧ b.MaxRetries ≤ b.numRetries then
    some (.terminatedAfter b.numRetries)
  else none

/-- `NumRetries`: read-only accessor. -/
def NumRetries (b : Backoff) : Int := b.numRetries

/-- Maximum jitter: 1000 milliseconds. -/
def maxmilli : Int := 1000

/-- `NextDelay`: increments `numRetries`, then computes
`(1<<b.numRetries)*time.Second + time.Duration(rand.Intn(maxmilli))*time.Millisecond`
with the incremented count; `j` models the `rand.Intn(maxmilli)` draw.
Returns the updated struct and the returned duration. -/
def NextDelay (b : Backoff) (j : Int) : Backoff × Int :=
  let n := i64 (b.numRetries + 1)
  let d := i64 (2 ^ n.toNat * Second + j * Millisecond)
  ({ b with numRetries := n, nextDelay := d }, d)

/-- `Wait`: when ongoing, arms a timer with `NextDelay()` (evaluated before
the `select` picks a branch) and blocks until the timer or the context
fires; otherwise returns immediately. The second component is the duration
the timer was armed with (0 when not ongoing). -/
def Wait (b : Backoff) (j : Int) : Backoff × Int :=
  if Ongoing b then NextDelay b j else (b, 0)

/-- `WaitFor(d)`: falls back to `Wait` when `d == 0`; otherwise, when
ongoing, increments the count once and arms a timer with
`d + time.Duration(rand.Intn(maxmilli))*time.Millisecond`. -/
def WaitFor (b : Backoff) (d : Int) (j : Int) : Backoff × Int :=
  if d = 0 then Wait b j
  else if Ongoing b then
    ({ b with numRetries := i64 (b.numRetries + 1) }, i64 (d + j * Millisecond))
  else (b, 0)

/-- Folding a jitter stream through bare `NextDelay` calls. -/
def nextDelays (b : Backoff) (js : List Int) : Backoff :=
  js.foldl (fun b j => (NextDelay b j).1) b

/-- One call to a public operation of the controller. The query
operations (`Ongoing`, `Err`, `NumRetries`) do not change the state and
are represented by a single constructor. -/
inductive Op where
  | nextDelay : Int → Op
  | wait : Int → Op
  | waitFor : Int → Int → Op
  | query : Op
deriving DecidableEq, Repr

/-- State change of one public operation. -/
def applyOp (b : Backoff) : Op → Backoff
  | .nextDelay j => (NextDelay b j).1
  | .wait j => (Wait b j).1
  | .waitFor d j => (WaitFor b d j).1
  | .query => b

/-- State after a sequence of public operations. -/
def runOps (b : Backoff) (ops : List Op) : Backoff := ops.foldl applyOp b

/-- Guard of one operation: a bare `NextDelay` call must happen while the
controller is still ongoing; the other operations check this themselves or
do not advance the state. -/
def opGuard (b : Backoff) : Op → Prop
  | .nextDelay _ => Ongoing b = true
  | _ => True

/-- A call sequence is guarded when every bare `NextDelay` call happens
while the controller is still ongoing (`Wait`/`WaitFor` check this
themselves). -/
def guardedRun : Backoff → List Op → Prop
  | _, [] => True
  | b, op :: rest => opGuard b op ∧ guardedRun (applyOp b op) rest

/-! Metrics exporter (`Register` / `Collect`). `Register(b Backoff, name)`
receives the `Backoff` by value, so the registered exporter holds a copy
of the struct made at registration time. -/

/-- A registry entry: the label and the copied `Backoff` value. -/
def Register (b : Backoff) (name : String) : String × Backoff := (name, b)

/-- `Collect` reports the two gauges of the registered copy:
`(MaxRetries, numRetries)`. It reads fields only. -/
def Collect (e : Backoff) : Int × Int := (e.MaxRetries, e.numRetries)

/-! Retry-After header helper. The two standard-library parses applied to
the header value are modelled by their outcomes: `time.Parse(time.RFC1123, s)`
yields an absolute instant or fails, `strconv.Atoi(s)` yields an integer or
fails (so a successful `atoi` outcome always lies in the int64 range, since
`Atoi` reports an out-of-range error). An absent header is the empty string,
on which both fail. `time.Until(t) = t.Sub(now)` saturates at the largest or
smallest `time.Duration` when the difference does not fit, while the
multiplication `time.Duration(d) * time.Second` wraps like any int64
product. -/

/-- Outcome of the two parses of a `Retry-After` header value. -/
structure HeaderParses where
  rfc1123 : Option Int
  atoi : Option Int
deriving DecidableEq, Repr

/-- Saturation of `time.Time.Sub` (hence of `time.Until`): a difference that
does not fit in a `time.Duration` becomes the maximum or minimum duration. -/
def satDur (x : Int) : Int :=
  if x > 2 ^ 63 - 1 then 2 ^ 63 - 1
  else if x < -(2 ^ 63) then -(2 ^ 63)
  else x

/-- `RetryAfterHTTP`: try the date parse (returning the saturated difference
`time.Until(t)`), then the integer parse (returning the wrapped int64
product `time.Duration(d) * time.Second`), else zero. -/
def RetryAfterHTTP (now : Int) (h : HeaderParses) : Int :=
  match h.rfc1123 with
  | some t => satDur (t - now)
  | none =>
      match h.atoi with
      | some d => i64 (d * Second)
      | none => 0

/-! Basic lemmas about the embedding. -/

theorem i64_eq_self (x : Int) (h0 : -(2 ^ 63) ≤ x) (h1 : x < 2 ^ 63) : i64 x = x := by
  unfold i64
  omega

theorem NextDelay_fst (b : Backoff) (j : Int) :
    (NextDelay b j).1 =
      { b with numRetries := i64 (b.numRetries + 1)
               nextDelay := i64 (2 ^ (i64 (b.numRetries + 1)).toNat * Second + j * Millisecond) } :=
  rfl

theorem NextDelay_snd (b : Backoff) (j : Int) :
    (NextDelay b j).2 =
      i64 (2 ^ (i64 (b.numRetries + 1)).toNat * Second + j * Millisecond) :=
  rfl

theorem New_of_ne (now : Int) (ctx : Context) (r : Int) (h : ¬ (ctx.deadline = none ∧ r = 0)) :
    New now ctx r =
      { MaxRetries := r, ctx := ctx, hasCancel := false, numRetries := 0, nextDelay := 0 } := by
  unfold New
  rw [if_neg h]

theorem New_MaxRetries (now : Int) (ctx : Context) (r : Int) : (New now ctx r).MaxRetries = r := by
  unfold New
  split <;> rfl

theorem New_numRetries (now : Int) (ctx : Context) (r : Int) : (New now ctx r).numRetries = 0 := by
  unfold New
  split <;> rfl

theorem New_ctx_err (now : Int) (ctx : Context) (r : Int) : (New now ctx r).ctx.err = ctx.err := by
  unfold New
  split <;> rfl

theorem Ongoing_iff (b : Backoff) :
    Ongoing b = true ↔ b.ctx.err = none ∧ (b.MaxRetries = 0 ∨ b.numRetries < b.MaxRetries) := by
  simp [Ongoing, Option.isNone_iff_eq_none]

theorem ongoing_bound (b : Backoff) (hb : Ongoing b = true) (hmax : 0 < b.MaxRetries) :
    b.numRetries < b.MaxRetries := by
  rw [Ongoing_iff] at hb
  rcases hb.2 with h | h
  · omega
  · exact h

/-! Claim theorems. -/

/-- Claim C3, counterexample: on a fresh controller with retry count 0, `NextDelay`
with jitter draw 0 returns 2 seconds, not `2^0 = 1` second as the claim states,
because the count is incremented before the shift is taken. -/
theorem c3_delay_law_counterexample :
    ¬ ((NextDelay (New 0 ⟨none, none⟩ 1) 0).2 =
        2 ^ (New 0 ⟨none, none⟩ 1).numRetries.toNat * Second + 0 * Millisecond) := by
  decide

/-- Claim C3, amended: `NextDelay` first increments the retry count and then
returns `2^(incremented count)` seconds plus the jitter, which stays within
`[0, 1000)` milliseconds; so the first call on a fresh controller returns a
base delay of `2^1 = 2` seconds. Stated for counts whose delay fits in a
64-bit duration. -/
theorem c3_delay_law_amended (b : Backoff) (j : Int)
    (hj0 : 0 ≤ j) (hj1 : j < maxmilli)
    (hn0 : 0 ≤ b.numRetries) (hn1 : b.numRetries + 1 ≤ 33) :
    (NextDelay b j).2 = 2 ^ (b.numRetries + 1).toNat * Second + j * Millisecond ∧
    (NextDelay b j).1.numRetries = b.numRetries + 1 ∧
    0 ≤ j * Millisecond ∧ j * Millisecond < 1000 * Millisecond := by
  unfold maxmilli at hj1
  have hn64 : b.numRetries + 1 < 2 ^ 63 := by omega
  have hn : i64 (b.numRetries + 1) = b.numRetries + 1 := i64_eq_self _ (by omega) hn64
  have htn : (b.numRetries + 1).toNat ≤ 33 := by omega
  have hpow : (2 : Int) ^ (b.numRetries + 1).toNat ≤ 2 ^ 33 :=
    pow_le_pow_right₀ (by norm_num) htn
  have hpow0 : (0 : Int) < 2 ^ (b.numRetries + 1).toNat := by positivity
  have hjm0 : 0 ≤ j * Millisecond := by
    have : (0 : Int) ≤ Millisecond := by norm_num [Millisecond]
    exact mul_nonneg hj0 this
  have hjm1 : j * Millisecond ≤ 999 * Millisecond := by
    have : (0 : Int) ≤ Millisecond := by norm_num [Millisecond]
    exact mul_le_mul_of_nonneg_right (by omega) this
  have hd : i64 (2 ^ (b.numRetries + 1).toNat * Second + j * Millisecond)
      = 2 ^ (b.numRetries + 1).toNat * Second + j * Millisecond := by
    apply i64_eq_self
    · have : (0 : Int) ≤ 2 ^ (b.numRetries + 1).toNat * Second := by
        have : (0 : Int) ≤ Second := by norm_num [Second]
        positivity
      omega
    · have h1 : 2 ^ (b.numRetries + 1).toNat * Second ≤ 2 ^ 33 * Second := by
        have : (0 : Int) ≤ Second := by norm_num [Second]
        exact mul_le_mul_of_nonneg_right hpow this
      have h2 : (2 : Int) ^ 33 * Second + 999 * Millisecond < 2 ^ 63 := by
        norm_num [Second, Millisecond]
      omega
  refine ⟨?_, ?_, hjm0, by norm_num [Millisecond] at hjm1 ⊢; omega⟩
  · rw [NextDelay_snd, hn, hd]
  · rw [NextDelay_fst]
    exact hn

/-- Claim C3, witness for the amended theorem at a fresh controller and
jitter draw 500. -/
theorem c3_delay_law_amended_witness :
    (NextDelay (New 0 ⟨none, none⟩ 5) 500).2 =
      2 ^ ((New 0 ⟨none, none⟩ 5).numRetries + 1).toNat * Second + 500 * Millisecond ∧
    (NextDelay (New 0 ⟨none, none⟩ 5) 500).1.numRetries =
      (New 0 ⟨none, none⟩ 5).numRetries + 1 :=
  ⟨(c3_delay_law_amended (New 0 ⟨none, none⟩ 5) 500 (by decide) (by decide)
      (by decide) (by decide)).1,
   (c3_delay_law_amended (New 0 ⟨none, none⟩ 5) 500 (by decide) (by decide)
      (by decide) (by decide)).2.1⟩

/-- Claim C7: `WaitFor` with the zero duration is literally a call to `Wait`,
with the same state change and the same armed timer duration. -/
theorem c7_waitfor_zero_is_wait (b : Backoff) (j : Int) :
    WaitFor b 0 j = Wait b j :=
  rfl

/-- Claim C8, counterexample: `Register` receives the `Backoff` by value, so
after the controller advances by one `NextDelay` call, collecting the
registered entry still reports the retry count from registration time (0),
not the controller's current count (1). -/
theorem c8_collect_counterexample :
    ¬ ((Collect (Register (New 0 ⟨none, none⟩ 5) "ctrl").2).2 =
        NumRetries (NextDelay (New 0 ⟨none, none⟩ 5) 0).1) := by
  decide

/-- Claim C8, amended: a registered entry carries the caller-supplied name and
a copy of the `Backoff` made at registration time; every collection reports
the maximum retries and the retry count of that copy (not of the live
controller), and collecting reads fields only, mutating nothing. -/
theorem c8_collect_snapshot (b : Backoff) (name : String) :
    (Register b name).1 = name ∧
    Collect (Register b name).2 = (b.MaxRetries, b.numRetries) :=
  ⟨rfl, rfl⟩

/-- Claim C9, counterexample: for the header value 9300000000 (which
`strconv.Atoi` parses, since it fits in an int64), the product
`time.Duration(9300000000) * time.Second` overflows an int64 and wraps, so
the returned duration is not 9300000000 seconds as the claim states. -/
theorem c9_retry_after_http_counterexample :
    ¬ (RetryAfterHTTP 0 ⟨none, some 9300000000⟩ = 9300000000 * Second) := by
  decide

/-- Claim C9, amended: a parsed date yields the saturated difference
`time.Until(t)`, equal to `t - now` whenever that fits in an int64 duration;
a parsed integer yields the wrapped int64 product `d * Second`, equal to
exactly `d` seconds whenever `|d| ≤ 9223372036` (so 120 seconds for the
value 120); an absent or unparseable value yields zero. -/
theorem c9_retry_after_http_amended (now : Int) (h : HeaderParses) :
    (∀ t, h.rfc1123 = some t → RetryAfterHTTP now h = satDur (t - now)) ∧
    (∀ t, h.rfc1123 = some t → -(2 ^ 63) ≤ t - now → t - now < 2 ^ 63 →
      RetryAfterHTTP now h = t - now) ∧
    (h.rfc1123 = none → ∀ d, h.atoi = some d → RetryAfterHTTP now h = i64 (d * Second)) ∧
    (h.rfc1123 = none → ∀ d, h.atoi = some d → -9223372036 ≤ d → d ≤ 9223372036 →
      RetryAfterHTTP now h = d * Second) ∧
    (h.rfc1123 = none → h.atoi = none → RetryAfterHTTP now h = 0) ∧
    RetryAfterHTTP now ⟨none, some 120⟩ = 120 * Second := by
  have hsat : ∀ x : Int, -(2 ^ 63) ≤ x → x < 2 ^ 63 → satDur x = x := by
    intro x hx1 hx2
    unfold satDur
    rw [if_neg (by omega), if_neg (by omega)]
  have hdate : ∀ t, h.rfc1123 = some t → RetryAfterHTTP now h = satDur (t - now) := by
    intro t ht
    unfold RetryAfterHTTP
    rw [ht]
  have hint : h.rfc1123 = none → ∀ d, h.atoi = some d →
      RetryAfterHTTP now h = i64 (d * Second) := by
    intro h1 d hd
    unfold RetryAfterHTTP
    rw [h1, hd]
  refine ⟨hdate, ?_, hint, ?_, ?_,
    by rw [show RetryAfterHTTP now ⟨none, some 120⟩ = i64 (120 * Second) from rfl]; decide⟩
  · intro t ht hx1 hx2
    rw [hdate t ht]
    exact hsat _ hx1 hx2
  · intro h1 d hd hd1 hd2
    rw [hint h1 d hd]
    apply i64_eq_self _ (by norm_num [Second]; omega) (by norm_num [Second]; omega)
  · intro h1 h2
    unfold RetryAfterHTTP
    rw [h1, h2]

/-- Claim C9, witness at a header whose integer parse yields 120. -/
theorem c9_retry_after_http_witness :
    RetryAfterHTTP 0 ⟨none, some 120⟩ = 120 * Second :=
  (c9_retry_after_http_amended 0 ⟨none, some 120⟩).2.2.2.1 rfl 120 rfl (by decide) (by decide)

/-- Claim C10: constructing with a negative `maxRetries` and a live context
synthesizes no deadline (the struct keeps the caller's context and owns no
cancel), `Ongoing` is false from the start, and `Err` is the retry-exhausted
error naming 0 retries. -/
theorem c10_negative_retries (now r : Int) (ctx : Context)
    (hr : r < 0) (hctx : ctx.err = none) :
    New now ctx r =
      { MaxRetries := r, ctx := ctx, hasCancel := false, numRetries := 0, nextDelay := 0 } ∧
    Ongoing (New now ctx r) = false ∧
    Err (New now ctx r) = some (GoError.terminatedAfter 0) ∧
    errorMessage (GoError.terminatedAfter 0) = "terminated after 0 retries" := by
  have hne : ¬ (ctx.deadline = none ∧ r = 0) := by
    rintro ⟨-, h⟩
    omega
  have hN := New_of_ne now ctx r hne
  refine ⟨hN, ?_, ?_, rfl⟩
  · rw [hN]
    simp [Ongoing, hctx]
    omega
  · rw [hN]
    simp only [Err, hctx]
    norm_num
    omega

/-- Claim C10, witness at `maxRetries = -1` and a live context carrying a
deadline. -/
theorem c10_negative_retries_witness :
    Ongoing (New 0 ⟨some 5, none⟩ (-1)) = false ∧
    Err (New 0 ⟨some 5, none⟩ (-1)) = some (GoError.terminatedAfter 0) :=
  ⟨(c10_negative_retries 0 (-1) ⟨some 5, none⟩ (by decide) rfl).2.1,
   (c10_negative_retries 0 (-1) ⟨some 5, none⟩ (by decide) rfl).2.2.1⟩

/-- Claim C4: one call to `Wait`, or to `WaitFor` with any duration, increments
the retry count by exactly one when the controller is ongoing, and leaves the
state unchanged (returning a zero armed duration) when it is not; no path
increments twice. Stated for counts below the 64-bit wrap point. -/
theorem c4_single_increment (b : Backoff) (d j : Int)
    (h0 : 0 ≤ b.numRetries) (h64 : b.numRetries + 1 < 2 ^ 63) :
    (Ongoing b = true →
      NumRetries (Wait b j).1 = NumRetries b + 1 ∧
      NumRetries (WaitFor b d j).1 = NumRetries b + 1) ∧
    (Ongoing b = false →
      (Wait b j).1 = b ∧ (Wait b j).2 = 0 ∧
      (WaitFor b d j).1 = b ∧ (WaitFor b d j).2 = 0) := by
  have hn : i64 (b.numRetries + 1) = b.numRetries + 1 := i64_eq_self _ (by omega) h64
  constructor
  · intro hb
    have hw : NumRetries (Wait b j).1 = NumRetries b + 1 := by
      unfold Wait
      rw [if_pos hb, NextDelay_fst]
      exact hn
    refine ⟨hw, ?_⟩
    unfold WaitFor
    by_cases hd : d = 0
    · rw [if_pos hd]
      exact hw
    · rw [if_neg hd, if_pos hb]
      exact hn
  · intro hb
    have hb' : ¬ Ongoing b = true := by
      rw [hb]
      exact Bool.false_ne_true
    have hw1 : (Wait b j).1 = b := by
      unfold Wait
      rw [if_neg hb']
    have hw2 : (Wait b j).2 = 0 := by
      unfold Wait
      rw [if_neg hb']
    refine ⟨hw1, hw2, ?_, ?_⟩ <;> unfold WaitFor <;> by_cases hd : d = 0
    · rw [if_pos hd]
      exact hw1
    · rw [if_neg hd, if_neg hb']
    · rw [if_pos hd]
      exact hw2
    · rw [if_neg hd, if_neg hb']

/-- Claim C4, witness: on a fresh ongoing controller one `Wait` and one
`WaitFor 5` each add exactly one to the count; on an exhausted controller
(negative bound) both leave the state unchanged. -/
theorem c4_single_increment_witness :
    (NumRetries (Wait (New 0 ⟨none, none⟩ 3) 0).1 = NumRetries (New 0 ⟨none, none⟩ 3) + 1 ∧
      NumRetries (WaitFor (New 0 ⟨none, none⟩ 3) 5 0).1 = NumRetries (New 0 ⟨none, none⟩ 3) + 1) ∧
    (Wait (New 0 ⟨none, none⟩ (-1)) 0).1 = New 0 ⟨none, none⟩ (-1) :=
  ⟨(c4_single_increment (New 0 ⟨none, none⟩ 3) 5 0 (by decide) (by decide)).1 (by decide),
   (((c4_single_increment (New 0 ⟨none, none⟩ (-1)) 5 0 (by decide) (by decide)).2
      (by decide)).1)⟩

/-- Claim C5: `Err` is nil exactly while `Ongoing` is true; the context error
is propagated verbatim with priority (even when the retry count is also
exhausted); with a live context and a nonzero exhausted bound the result is
the retry-exhausted error naming the current count. -/
theorem c5_err_iff_terminated (b : Backoff) :
    (Err b = none ↔ Ongoing b = true) ∧
    (∀ e, b.ctx.err = some e → Err b = some e) ∧
    (b.ctx.err = none → b.MaxRetries ≠ 0 → b.MaxRetries ≤ b.numRetries →
      Err b = some (GoError.terminatedAfter b.numRetries)) := by
  refine ⟨?_, ?_, ?_⟩
  · rw [Ongoing_iff]
    unfold Err
    rcases hc : b.ctx.err with _ | e
    · simp only [hc, Option.isSome_none, Bool.false_eq_true, if_false]
      split_ifs with h
      · simp only [reduceCtorEq, false_iff]
        rintro ⟨-, h2⟩
        omega
      · simp only [true_iff]
        exact ⟨trivial, by omega⟩
    · simp only [hc, Option.isSome_some, if_true]
      simp only [reduceCtorEq, false_iff]
      rintro ⟨h2, -⟩
      exact absurd h2 (by simp [hc] at *)
  · intro e he
    unfold Err
    rw [he]
    rfl
  · intro hc hne hle
    unfold Err
    rw [hc]
    simp only [Option.isSome_none, Bool.false_eq_true, if_false]
    rw [if_pos ⟨hne, hle⟩]

/-- Claim C5, witness: a controller whose deadline has fired and whose count
is simultaneously exhausted reports the context error, not the count error. -/
theorem c5_err_iff_terminated_witness :
    Err { MaxRetries := 1, ctx := ⟨none, some GoError.deadlineExceeded⟩, hasCancel := false,
          numRetries := 1, nextDelay := 0 } = some GoError.deadlineExceeded :=
  (c5_err_iff_terminated _).2.1 GoError.deadlineExceeded rfl

/-- Claim C6: `New` synthesizes a 64-second deadline (inside the 60–120 s
window) and records ownership of it exactly when the context carries no
deadline and `maxRetries` is 0; otherwise the caller's context is stored
unmodified with no owned cancel; and every constructed controller carries a
count bound or a deadline. -/
theorem c6_default_deadline (now : Int) (ctx : Context) (r : Int) :
    (ctx.deadline = none ∧ r = 0 →
      (New now ctx r).ctx.deadline = some (now + defaultTimeout) ∧
      (New now ctx r).hasCancel = true ∧
      60 * Second ≤ defaultTimeout ∧ defaultTimeout ≤ 120 * Second) ∧
    (¬ (ctx.deadline = none ∧ r = 0) →
      (New now ctx r).ctx = ctx ∧ (New now ctx r).hasCancel = false) ∧
    ((New now ctx r).MaxRetries ≠ 0 ∨ (New now ctx r).ctx.deadline.isSome) := by
  refine ⟨?_, ?_, ?_⟩
  · intro h
    unfold New
    rw [if_pos h]
    refine ⟨rfl, rfl, by norm_num [defaultTimeout, Second], by norm_num [defaultTimeout, Second]⟩
  · intro h
    rw [New_of_ne now ctx r h]
    exact ⟨rfl, rfl⟩
  · by_cases h : ctx.deadline = none ∧ r = 0
    · right
      unfold New
      rw [if_pos h]
      rfl
    · rw [New_of_ne now ctx r h]
      rcases hd : ctx.deadline with _ | t
      · left
        simp only [hd, true_and] at h
        exact h
      · right
        simp [hd]

/-- Claim C6, witness: with no caller deadline and `maxRetries = 0` the
synthesized deadline is `now + 64 s` and is owned; with `maxRetries = 2` the
context is kept as-is and nothing is owned. -/
theorem c6_default_deadline_witness :
    ((New 7 ⟨none, none⟩ 0).ctx.deadline = some (7 + defaultTimeout) ∧
      (New 7 ⟨none, none⟩ 0).hasCancel = true) ∧
    ((New 7 ⟨none, none⟩ 2).ctx = ⟨none, none⟩ ∧ (New 7 ⟨none, none⟩ 2).hasCancel = false) :=
  ⟨⟨((c6_default_deadline 7 ⟨none, none⟩ 0).1 ⟨rfl, rfl⟩).1,
    ((c6_default_deadline 7 ⟨none, none⟩ 0).1 ⟨rfl, rfl⟩).2.1⟩,
   (c6_default_deadline 7 ⟨none, none⟩ 2).2.1 (by rintro ⟨-, h⟩; exact absurd h (by decide))⟩

/-! Lemmas for bare `NextDelay` loops (claim C1). -/

theorem Ongoing_false_iff (b : Backoff) :
    Ongoing b = false ↔
      ¬ (b.ctx.err = none ∧ (b.MaxRetries = 0 ∨ b.numRetries < b.MaxRetries)) := by
  rw [← Ongoing_iff]
  cases h : Ongoing b <;> simp

theorem nextDelays_cons (b : Backoff) (j : Int) (js : List Int) :
    nextDelays b (j :: js) = nextDelays (NextDelay b j).1 js :=
  rfl

theorem nextDelays_spec (js : List Int) (b : Backoff)
    (h0 : 0 ≤ b.numRetries) (hlen : b.numRetries + js.length < 2 ^ 63) :
    (nextDelays b js).numRetries = b.numRetries + js.length ∧
    (nextDelays b js).MaxRetries = b.MaxRetries ∧
    (nextDelays b js).ctx = b.ctx := by
  induction js generalizing b with
  | nil => exact ⟨by simp [nextDelays], rfl, rfl⟩
  | cons j js ih =>
      simp only [List.length_cons] at hlen
      have h64 : b.numRetries + 1 < 2 ^ 63 := by push_cast at hlen; omega
      have hstep : (NextDelay b j).1.numRetries = b.numRetries + 1 := by
        rw [NextDelay_fst]
        exact i64_eq_self _ (by omega) h64
      have hctx : (NextDelay b j).1.ctx = b.ctx := by rw [NextDelay_fst]
      have hmax : (NextDelay b j).1.MaxRetries = b.MaxRetries := by rw [NextDelay_fst]
      have hrec := ih ((NextDelay b j).1) (by rw [hstep]; omega)
        (by rw [hstep]; push_cast at hlen ⊢; omega)
      rw [nextDelays_cons]
      refine ⟨?_, by rw [hrec.2.1, hmax], by rw [hrec.2.2, hctx]⟩
      rw [hrec.1, hstep]
      simp only [List.length_cons]
      push_cast
      ring

/-- Claim C1: with `maxRetries = N > 0` and a context that never expires, the
loop of bare `NextDelay` calls is ongoing before each of the first N calls,
becomes not ongoing exactly after the N-th, and `Err` then is the
retry-exhausted error whose message names N. -/
theorem c1_count_bounded_termination (now N : Int) (ctx : Context)
    (hctx : ctx.err = none) (hN : 0 < N) (hN64 : N < 2 ^ 63)
    (js : List Int) (hlen : (js.length : Int) = N) :
    (∀ k : Nat, (k : Int) < N → Ongoing (nextDelays (New now ctx N) (js.take k)) = true) ∧
    Ongoing (nextDelays (New now ctx N) js) = false ∧
    Err (nextDelays (New now ctx N) js) = some (GoError.terminatedAfter N) ∧
    errorMessage (GoError.terminatedAfter N) = "terminated after " ++ toString N ++ " retries" := by
  have hnum := New_numRetries now ctx N
  have hmax := New_MaxRetries now ctx N
  have hcerr := New_ctx_err now ctx N
  have hfull := nextDelays_spec js (New now ctx N) (by simp [hnum])
    (by rw [hnum, hlen]; omega)
  have hnr : (nextDelays (New now ctx N) js).numRetries = N := by
    rw [hfull.1, hnum, hlen]
    omega
  have hmr : (nextDelays (New now ctx N) js).MaxRetries = N := by
    rw [hfull.2.1, hmax]
  have herr : (nextDelays (New now ctx N) js).ctx.err = none := by
    rw [hfull.2.2, hcerr, hctx]
  refine ⟨?_, ?_, ?_, rfl⟩
  · intro k hk
    have hkle : k ≤ js.length := by omega
    have htake : (((js.take k).length : Int)) = k := by
      rw [List.length_take]
      omega
    have hspec := nextDelays_spec (js.take k) (New now ctx N) (by simp [hnum])
      (by rw [hnum, htake]; omega)
    rw [Ongoing_iff]
    refine ⟨by rw [hspec.2.2, hcerr, hctx], Or.inr ?_⟩
    rw [hspec.1, hspec.2.1, hnum, hmax, htake]
    omega
  · rw [Ongoing_false_iff, hnr, hmr, herr]
    rintro ⟨-, h | h⟩ <;> omega
  · unfold Err
    rw [herr, hnr, hmr]
    simp only [Option.isSome_none, Bool.false_eq_true, if_false]
    rw [if_pos ⟨by omega, le_refl N⟩]

/-- Claim C1, witness at `N = 2`: after two `NextDelay` calls the controller
is no longer ongoing and `Err` names 2 retries. -/
theorem c1_count_bounded_termination_witness :
    Ongoing (nextDelays (New 0 ⟨none, none⟩ 2) [5, 7]) = false ∧
    Err (nextDelays (New 0 ⟨none, none⟩ 2) [5, 7]) = some (GoError.terminatedAfter 2) :=
  ⟨(c1_count_bounded_termination 0 2 ⟨none, none⟩ rfl (by decide) (by decide) [5, 7]
      (by decide)).2.1,
   (c1_count_bounded_termination 0 2 ⟨none, none⟩ rfl (by decide) (by decide) [5, 7]
      (by decide)).2.2.1⟩

/-! Lemmas for sequences of public operations (claim C2). -/

theorem Wait_fst_numRetries (b : Backoff) (j : Int) :
    (Wait b j).1.numRetries = if Ongoing b then i64 (b.numRetries + 1) else b.numRetries := by
  unfold Wait
  split
  · rw [NextDelay_fst]
  · rfl

theorem Wait_fst_MaxRetries (b : Backoff) (j : Int) : (Wait b j).1.MaxRetries = b.MaxRetries := by
  unfold Wait
  split
  · rw [NextDelay_fst]
  · rfl

theorem WaitFor_fst_numRetries (b : Backoff) (d j : Int) :
    (WaitFor b d j).1.numRetries =
      if Ongoing b then i64 (b.numRetries + 1) else b.numRetries := by
  unfold WaitFor
  by_cases hd : d = 0
  · rw [if_pos hd, Wait_fst_numRetries]
  · rw [if_neg hd]
    split <;> rfl

theorem WaitFor_fst_MaxRetries (b : Backoff) (d j : Int) :
    (WaitFor b d j).1.MaxRetries = b.MaxRetries := by
  unfold WaitFor
  by_cases hd : d = 0
  · rw [if_pos hd, Wait_fst_MaxRetries]
  · rw [if_neg hd]
    split <;> rfl

theorem applyOp_invariant (b : Backoff) (op : Op)
    (hmax : 0 < b.MaxRetries) (hmax64 : b.MaxRetries < 2 ^ 63)
    (h0 : 0 ≤ b.numRetries) (h1 : b.numRetries ≤ b.MaxRetries)
    (hg : opGuard b op) :
    b.numRetries ≤ (applyOp b op).numRetries ∧
    0 ≤ (applyOp b op).numRetries ∧
    (applyOp b op).numRetries ≤ b.MaxRetries ∧
    (applyOp b op).MaxRetries = b.MaxRetries := by
  have hinc : Ongoing b = true →
      i64 (b.numRetries + 1) = b.numRetries + 1 ∧ b.numRetries + 1 ≤ b.MaxRetries := by
    intro hb
    have := ongoing_bound b hb hmax
    exact ⟨i64_eq_self _ (by omega) (by omega), by omega⟩
  cases op with
  | nextDelay j =>
      obtain ⟨he, hle⟩ := hinc hg
      have hn : (applyOp b (Op.nextDelay j)).numRetries = b.numRetries + 1 := by
        show i64 (b.numRetries + 1) = b.numRetries + 1
        exact he
      exact ⟨by omega, by omega, by omega, rfl⟩
  | wait j =>
      simp only [applyOp]
      have hn := Wait_fst_numRetries b j
      have hm := Wait_fst_MaxRetries b j
      by_cases hb : Ongoing b = true
      · obtain ⟨he, hle⟩ := hinc hb
        rw [if_pos hb, he] at hn
        exact ⟨by omega, by omega, by omega, hm⟩
      · rw [if_neg hb] at hn
        exact ⟨by omega, by omega, by omega, hm⟩
  | waitFor d j =>
      simp only [applyOp]
      have hn := WaitFor_fst_numRetries b d j
      have hm := WaitFor_fst_MaxRetries b d j
      by_cases hb : Ongoing b = true
      · obtain ⟨he, hle⟩ := hinc hb
        rw [if_pos hb, he] at hn
        exact ⟨by omega, by omega, by omega, hm⟩
      · rw [if_neg hb] at hn
        exact ⟨by omega, by omega, by omega, hm⟩
  | query =>
      exact ⟨le_refl _, h0, h1, rfl⟩

theorem runOps_invariant (ops : List Op) (b : Backoff)
    (hmax : 0 < b.MaxRetries) (hmax64 : b.MaxRetries < 2 ^ 63)
    (h0 : 0 ≤ b.numRetries) (h1 : b.numRetries ≤ b.MaxRetries)
    (hg : guardedRun b ops) :
    b.numRetries ≤ (runOps b ops).numRetries ∧
    0 ≤ (runOps b ops).numRetries ∧
    (runOps b ops).numRetries ≤ b.MaxRetries ∧
    (runOps b ops).MaxRetries = b.MaxRetries := by
  induction ops generalizing b with
  | nil => exact ⟨le_refl _, h0, h1, rfl⟩
  | cons op rest ih =>
      obtain ⟨hg1, hg2⟩ := hg
      have hstep := applyOp_invariant b op hmax hmax64 h0 h1 hg1
      have hrec := ih (applyOp b op) (by rw [hstep.2.2.2]; exact hmax)
        (by rw [hstep.2.2.2]; exact hmax64) hstep.2.1
        (by rw [hstep.2.2.2]; exact hstep.2.2.1) hg2
      have hrun : runOps b (op :: rest) = runOps (applyOp b op) rest := rfl
      rw [hrun]
      refine ⟨le_trans hstep.1 hrec.1, hrec.2.1, ?_, ?_⟩
      · rw [← hstep.2.2.2]
        exact hrec.2.2.1
      · rw [hrec.2.2.2, hstep.2.2.2]

theorem runOps_append (b : Backoff) (l1 l2 : List Op) :
    runOps b (l1 ++ l2) = runOps (runOps b l1) l2 := by
  simp [runOps]

theorem guardedRun_of_append_left (l1 : List Op) (b : Backoff) (l2 : List Op)
    (h : guardedRun b (l1 ++ l2)) : guardedRun b l1 := by
  induction l1 generalizing b with
  | nil => trivial
  | cons op rest ih =>
      obtain ⟨h1, h2⟩ := h
      exact ⟨h1, ih (applyOp b op) h2⟩

theorem guardedRun_suffix (l1 : List Op) (b : Backoff) (l2 : List Op)
    (h : guardedRun b (l1 ++ l2)) : guardedRun (runOps b l1) l2 := by
  induction l1 generalizing b with
  | nil => exact h
  | cons op rest ih =>
      obtain ⟨h1, h2⟩ := h
      exact ih (applyOp b op) h2

/-- Claim C2, counterexample: with `maxRetries = 1`, two bare `NextDelay`
calls (the second one issued after the controller stopped being ongoing)
drive the retry count to 2, exceeding `maxRetries`. -/
theorem c2_retry_count_counterexample :
    ¬ (NumRetries (runOps (New 0 ⟨none, none⟩ 1) [Op.nextDelay 0, Op.nextDelay 0]) ≤
        (New 0 ⟨none, none⟩ 1).MaxRetries) := by
  decide

/-- Claim C2, amended: along any sequence of public operations in which every
bare `NextDelay` call happens while the controller is ongoing (`Wait` and
`WaitFor` check this themselves), the retry count never decreases from one
step to the next and at every point of the trace stays between 0 and
`maxRetries = N > 0` (with N inside the 64-bit range). -/
theorem c2_retry_count_amended (now N : Int) (ctx : Context)
    (hN : 0 < N) (hN64 : N < 2 ^ 63) (ops : List Op)
    (hg : guardedRun (New now ctx N) ops) :
    ∀ k : Nat,
      NumRetries (runOps (New now ctx N) (ops.take k)) ≤
        NumRetries (runOps (New now ctx N) (ops.take (k + 1))) ∧
      0 ≤ NumRetries (runOps (New now ctx N) (ops.take k)) ∧
      NumRetries (runOps (New now ctx N) (ops.take k)) ≤ N := by
  intro k
  have hnum := New_numRetries now ctx N
  have hmax := New_MaxRetries now ctx N
  have hgk : ∀ m : Nat, guardedRun (New now ctx N) (ops.take m) := by
    intro m
    refine guardedRun_of_append_left (ops.take m) _ (ops.drop m) ?_
    rw [List.take_append_drop]
    exact hg
  have hinv : ∀ m : Nat,
      (New now ctx N).numRetries ≤ (runOps (New now ctx N) (ops.take m)).numRetries ∧
      0 ≤ (runOps (New now ctx N) (ops.take m)).numRetries ∧
      (runOps (New now ctx N) (ops.take m)).numRetries ≤ (New now ctx N).MaxRetries ∧
      (runOps (New now ctx N) (ops.take m)).MaxRetries = (New now ctx N).MaxRetries :=
    fun m => runOps_invariant (ops.take m) (New now ctx N) (by rw [hmax]; exact hN)
      (by rw [hmax]; exact hN64) (by simp [hnum]) (by rw [hnum, hmax]; omega) (hgk m)
  refine ⟨?_, (hinv k).2.1, (hinv k).2.2.1.trans_eq hmax⟩
  by_cases hk : k < ops.length
  · have hsuf := guardedRun_suffix (ops.take k) (New now ctx N) (ops.drop k)
      (by rw [List.take_append_drop]; exact hg)
    rw [List.drop_eq_getElem_cons hk] at hsuf
    obtain ⟨hguard, -⟩ := hsuf
    have hstep := applyOp_invariant (runOps (New now ctx N) (ops.take k)) (ops.get ⟨k, hk⟩)
      (by rw [(hinv k).2.2.2, hmax]; exact hN)
      (by rw [(hinv k).2.2.2, hmax]; exact hN64)
      (hinv k).2.1
      (by rw [(hinv k).2.2.2]; exact (hinv k).2.2.1)
      hguard
    have htake : ops.take (k + 1) = ops.take k ++ [ops.get ⟨k, hk⟩] := by
      rw [List.take_succ, List.getElem?_eq_getElem hk]
      rfl
    rw [htake, runOps_append]
    exact hstep.1
  · have h1 : ops.take k = ops := List.take_of_length_le (by omega)
    have h2 : ops.take (k + 1) = ops := List.take_of_length_le (by omega)
    rw [h1, h2]

/-- Claim C2, witness: on a controller with `maxRetries = 1`, the trace of one
guarded `NextDelay` followed by a `Wait` has a monotone step at position 0 and
a count of at most 1 after one step. -/
theorem c2_retry_count_amended_witness :
    (NumRetries (runOps (New 0 ⟨none, none⟩ 1) ([Op.nextDelay 0, Op.wait 0].take 0)) ≤
      NumRetries (runOps (New 0 ⟨none, none⟩ 1) ([Op.nextDelay 0, Op.wait 0].take 1))) ∧
    (0 ≤ NumRetries (runOps (New 0 ⟨none, none⟩ 1) ([Op.nextDelay 0, Op.wait 0].take 1)) ∧
      NumRetries (runOps (New 0 ⟨none, none⟩ 1) ([Op.nextDelay 0, Op.wait 0].take 1)) ≤ 1) :=
  ⟨(c2_retry_count_amended 0 1 ⟨none, none⟩ (by decide) (by decide) [Op.nextDelay 0, Op.wait 0]
      ⟨show Ongoing (New 0 ⟨none, none⟩ 1) = true by decide, trivial, trivial⟩ 0).1,
   (c2_retry_count_amended 0 1 ⟨none, none⟩ (by decide) (by decide) [Op.nextDelay 0, Op.wait 0]
      ⟨show Ongoing (New 0 ⟨none, none⟩ 1) = true by decide, trivial, trivial⟩ 1).2⟩

end Kit
